import Mathlib

/-!
Verification of the model-fitting / posterior-inference core of
`pycheops/dataset.py` against its natural-language specification.

Shallow embedding conventions:
* Python floats are modelled as real numbers (`ℝ`); values that can be
  `±inf` are modelled as `EReal` (`⊥` stands for `-inf`, `⊤` for `+inf`).
  IEEE `NaN` has no counterpart in this embedding.
* `lmfit.Parameter` objects are modelled by the `Par` structure, keeping
  only the fields `dataset.py` reads: `value`, `min`, `max`, `user_data`
  (an optional Gaussian prior `(n, s)`), `stderr` and `vary`.
* External callables (the composite model's `eval`, the GP
  log-likelihood) are abstracted as function arguments, so every theorem
  quantifies over them.
-/

set_option maxHeartbeats 1000000
set_option linter.unusedVariables false

namespace Pycheops

open Classical

/-- Embedding of `_log_prior(D, W, b)` (dataset.py lines 108-115):
the geometric prior on depth, width and impact parameter.  Each `return
-np.inf` branch is the `⊥` of `EReal`; the final branch returns the finite
value `-log(2*k*W) - log(k) - log(aR)` with `k = sqrt D` and
`aR = sqrt((1+k)^2 - b^2)/(pi*W)`. -/
noncomputable def log_prior (D W b : ℝ) : EReal :=
  if D < 2e-6 ∨ 0.2 < D then ⊥
  else if b < 0 ∨ 1 < b then ⊥
  else if W < 1e-4 then ⊥
  else
    let k := Real.sqrt D
    let aR := Real.sqrt ((1 + k) ^ 2 - b ^ 2) / (Real.pi * W)
    if aR < 2 then ⊥
    else (((-Real.log (2 * k * W) - Real.log k - Real.log aR : ℝ)) : EReal)

/-- The implied scaled semi-major axis `aR = sqrt((1+sqrt D)^2 - b^2)/(pi*W)`
computed inside `_log_prior`. -/
noncomputable def aR_of (D W b : ℝ) : ℝ :=
  Real.sqrt ((1 + Real.sqrt D) ^ 2 - b ^ 2) / (Real.pi * W)

/-- C3 (amended): `_log_prior` accepts the CLOSED depth interval
`2e-6 ≤ D ≤ 0.2` (the code rejects only strict violations `D < 2e-6` or
`D > 0.2`), together with `W ≥ 1e-4`, `0 ≤ b ≤ 1` and `aR ≥ 2`, and on the
accepted region returns the finite value `-log(2*k*W) - log k - log aR`
with `k = sqrt D`; on every input violating one of the four (closed-form)
conditions it returns exactly `-∞`. -/
theorem log_prior_characterization :
    (∀ D W b : ℝ, 2e-6 ≤ D → D ≤ 0.2 → 1e-4 ≤ W → 0 ≤ b → b ≤ 1 →
      2 ≤ aR_of D W b →
      log_prior D W b =
        ((-Real.log (2 * Real.sqrt D * W) - Real.log (Real.sqrt D)
            - Real.log (aR_of D W b) : ℝ) : EReal)) ∧
    (∀ D W b : ℝ,
      (D < 2e-6 ∨ 0.2 < D ∨ W < 1e-4 ∨ b < 0 ∨ 1 < b ∨ aR_of D W b < 2) →
      log_prior D W b = ⊥) := by
  constructor
  · intro D W b hD1 hD2 hW hb1 hb2 haR
    unfold log_prior
    rw [if_neg, if_neg, if_neg, if_neg]
    · rfl
    · show ¬ Real.sqrt ((1 + Real.sqrt D) ^ 2 - b ^ 2) / (Real.pi * W) < 2
      have : aR_of D W b = Real.sqrt ((1 + Real.sqrt D) ^ 2 - b ^ 2) / (Real.pi * W) := rfl
      rw [← this]
      linarith
    · linarith
    · push_neg
      exact ⟨hb1, hb2⟩
    · push_neg
      exact ⟨hD1, hD2⟩
  · intro D W b h
    unfold log_prior
    by_cases h1 : D < 2e-6 ∨ 0.2 < D
    · rw [if_pos h1]
    rw [if_neg h1]
    by_cases h2 : b < 0 ∨ 1 < b
    · rw [if_pos h2]
    rw [if_neg h2]
    by_cases h3 : W < 1e-4
    · rw [if_pos h3]
    rw [if_neg h3]
    by_cases h4 : Real.sqrt ((1 + Real.sqrt D) ^ 2 - b ^ 2) / (Real.pi * W) < 2
    · show (if Real.sqrt ((1 + Real.sqrt D) ^ 2 - b ^ 2) / (Real.pi * W) < 2
          then (⊥ : EReal) else _) = ⊥
      rw [if_pos h4]
    · exfalso
      push_neg at h1 h2 h3 h4
      have h5 : ¬ aR_of D W b < 2 := by
        show ¬ Real.sqrt ((1 + Real.sqrt D) ^ 2 - b ^ 2) / (Real.pi * W) < 2
        exact not_lt.mpr h4
      rcases h with h | h | h | h | h | h
      · exact absurd h (not_lt.mpr h1.1)
      · exact absurd h (not_lt.mpr h1.2)
      · exact absurd h (not_lt.mpr h3)
      · exact absurd h (not_lt.mpr h2.1)
      · exact absurd h (not_lt.mpr h2.2)
      · exact h5 h

/-- C3 witness: the amended characterization applied at the concrete
accepted input `(D, W, b) = (0.01, 0.1, 0)` and at the concrete rejected
input `(D, W, b) = (0.3, 0.1, 0)`. -/
theorem log_prior_characterization_witness :
    log_prior 0.01 0.1 0 =
      ((-Real.log (2 * Real.sqrt 0.01 * 0.1) - Real.log (Real.sqrt 0.01)
          - Real.log (aR_of 0.01 0.1 0) : ℝ) : EReal) ∧
    log_prior 0.3 0.1 0 = ⊥ := by
  have hs : Real.sqrt 0.01 = 0.1 := by
    rw [show (0.01:ℝ) = 0.1 ^ 2 by norm_num]
    exact Real.sqrt_sq (by norm_num)
  have haR : 2 ≤ aR_of 0.01 0.1 0 := by
    unfold aR_of
    rw [hs, show ((1 + (0.1:ℝ)) ^ 2 - 0 ^ 2) = 1.1 ^ 2 by norm_num,
      Real.sqrt_sq (by norm_num)]
    rw [le_div_iff₀ (by positivity)]
    nlinarith [Real.pi_le_four]
  exact ⟨log_prior_characterization.1 0.01 0.1 0 (by norm_num) (by norm_num)
      (by norm_num) (by norm_num) (by norm_num) haR,
    log_prior_characterization.2 0.3 0.1 0 (Or.inr (Or.inl (by norm_num)))⟩

/-- C3 counterexample: at `D = 2e-6` exactly — a point OUTSIDE the open
interval `(2e-6, 0.2)` demanded by the claim, so the claim says the result
must be `-∞` — the code accepts the input (its test is the strict
`D < 2e-6`) and returns a finite value. Here `W = 0.1`, `b = 0`. -/
theorem log_prior_boundary_not_bot : log_prior 2e-6 0.1 0 ≠ ⊥ := by
  unfold log_prior
  have hk0 : (0:ℝ) ≤ Real.sqrt 2e-6 := Real.sqrt_nonneg _
  have hsq : Real.sqrt ((1 + Real.sqrt 2e-6) ^ 2 - (0:ℝ) ^ 2)
      = 1 + Real.sqrt 2e-6 := by
    rw [show ((1 + Real.sqrt 2e-6) ^ 2 - (0:ℝ) ^ 2) = (1 + Real.sqrt 2e-6) ^ 2 by ring]
    exact Real.sqrt_sq (by linarith)
  have hpi : Real.pi ≤ 4 := Real.pi_le_four
  have hpi0 : 0 < Real.pi := Real.pi_pos
  have haR : ¬ Real.sqrt ((1 + Real.sqrt 2e-6) ^ 2 - (0:ℝ) ^ 2)
      / (Real.pi * (0.1:ℝ)) < 2 := by
    rw [hsq]
    rw [not_lt, le_div_iff₀ (by positivity)]
    nlinarith
  rw [if_neg (by norm_num), if_neg (by norm_num), if_neg (by norm_num),
    if_neg haR]
  exact EReal.coe_ne_bot _

/-- Embedding of the walker-initialization retry loop in
`Dataset.emcee_sampler` (dataset.py lines 1257-1264):

    lnlike_i = -np.inf
    while lnlike_i == -np.inf:
        pos_i = vv + vs*np.random.randn(n_varys)*init_scale
        lnlike_i = log_posterior_func(pos_i, *args)

The successive random draws are abstracted as a stream `draws : ℕ → α`
(attempt number ↦ proposed position) and the chosen log-posterior as
`lp : α → EReal`.  The loop is run on an explicit attempt budget `fuel`:
`some p` means the loop exited with accepted position `p` within the
budget, `none` means the loop was still retrying when the budget ran out.
The source contains no retry cap and no error branch, which is why no
error outcome appears in the return type. -/
noncomputable def walkerInitLoop {α : Type} (draws : ℕ → α)
    (lp : α → EReal) : ℕ → ℕ → Option α
  | _, 0 => none
  | k, fuel + 1 =>
    if lp (draws k) = ⊥ then walkerInitLoop draws lp (k + 1) fuel
    else some (draws k)

/-- Helper: if every drawn position is rejected, the loop never exits,
whatever the attempt budget and current attempt counter. -/
theorem walkerInitLoop_none_of_all_bot {α : Type} (draws : ℕ → α)
    (lp : α → EReal) (h : ∀ a : α, lp a = ⊥) :
    ∀ fuel k : ℕ, walkerInitLoop draws lp k fuel = none := by
  intro fuel
  induction fuel with
  | zero => intro k; rfl
  | succ n ih =>
    intro k
    show (if lp (draws k) = ⊥ then walkerInitLoop draws lp (k + 1) n
      else some (draws k)) = none
    rw [if_pos (h (draws k))]
    exact ih (k + 1)

/-- C1 (amended): the walker-initialization loop imposes NO bound on the
number of attempts and raises no error: on every input for which every
drawn position has log-posterior `-∞`, the loop is still retrying after
any finite number of attempts (it never terminates, with an error or
otherwise). -/
theorem walkerInitLoop_unbounded {α : Type} (draws : ℕ → α)
    (lp : α → EReal) (h : ∀ a : α, lp a = ⊥) :
    ∀ fuel k : ℕ, walkerInitLoop draws lp k fuel = none :=
  walkerInitLoop_none_of_all_bot draws lp h

/-- C1 witness: concrete instantiation of the amended statement at the
constant draw stream and the constant `-∞` posterior, with an attempt
budget of 10000 (the cap size proposed by the spec). -/
theorem walkerInitLoop_unbounded_witness :
    walkerInitLoop (fun _ : ℕ => (0:ℚ)) (fun _ => (⊥ : EReal)) 0 10000
      = none :=
  walkerInitLoop_unbounded (fun _ : ℕ => (0:ℚ)) (fun _ => (⊥ : EReal))
    (fun _ => rfl) 10000 0

/-- C1 counterexample: the claim asserts that on an input whose every
drawn position has log-posterior `-∞` the initialization terminates (with
a fatal `WalkerInitializationError`) after a bounded number of attempts.
In the code there is no attempt budget under which the loop stops: for
every budget the loop is still running, so no such bound exists. -/
theorem walkerInitLoop_no_bound :
    ¬ ∃ fuel : ℕ,
      (walkerInitLoop (fun _ : ℕ => (0:ℚ)) (fun _ => (⊥ : EReal)) 0
        fuel).isSome = true := by
  rintro ⟨fuel, hf⟩
  rw [walkerInitLoop_none_of_all_bot (fun _ : ℕ => (0:ℚ))
    (fun _ => (⊥ : EReal)) (fun _ => rfl) fuel 0] at hf
  exact Bool.false_ne_true hf

/-! ### C2: production-chain shape of the ensemble sampler

`Dataset.emcee_sampler` (dataset.py lines 1277-1280) runs

    state = sampler.run_mcmc(pos, steps, thin_by=thin, ...)
    flatchain = sampler.get_chain(flat=True).reshape((-1, len(vn)))

`EnsembleSampler.run_mcmc` with `thin_by=thin` is the external emcee
library: it makes `steps * thin` proposals per walker and stores one
ensemble snapshot after every `thin`-th proposal, so exactly `steps`
snapshots are stored.  This accounting is corroborated inside the source
itself by `result.nfev = nwalkers*steps*thin` (line 1317).
`get_chain(flat=True)` stacks the `steps` stored ensembles of `nwalkers`
walkers into `steps * nwalkers` rows of `ndim` entries each.  The sampler
move is abstracted below as an arbitrary ensemble-to-ensemble function. -/

/-- Apply a sampler move `n` times. -/
def iterateN {α : Type} (f : α → α) : ℕ → α → α
  | 0, s => s
  | n + 1, s => iterateN f n (f s)

/-- One production run: `stored` snapshots to take and `thin` proposals
between consecutive snapshots.  Returns the list of stored ensembles and
the final ensemble state. -/
def runThinned {α : Type} (move : α → α) (s : α) : ℕ → ℕ → List α × α
  | 0, _ => ([], s)
  | stored + 1, thin =>
    let s' := iterateN move thin s
    let r := runThinned move s' stored thin
    (s' :: r.1, r.2)

/-- The flattened production chain: all stored walker positions stacked
across stored steps (emcee `get_chain(flat=True)`). -/
def productionFlatChain {β : Type} (move : List β → List β)
    (init : List β) (steps thin : ℕ) : List β :=
  ((runThinned move init steps thin).1).flatten

/-- Helper: a size-preserving move keeps the ensemble size through any
number of proposals. -/
theorem iterateN_length {β : Type} (move : List β → List β)
    (hmove : ∀ e, (move e).length = e.length) :
    ∀ (t : ℕ) (s : List β), (iterateN move t s).length = s.length := by
  intro t
  induction t with
  | zero => intro s; rfl
  | succ n ih => intro s; rw [iterateN, ih (move s), hmove s]

/-- Helper: the flattened chain of a production run with a
size-preserving move has `steps * nwalkers` rows. -/
theorem productionFlatChain_length {β : Type} (move : List β → List β)
    (hmove : ∀ e, (move e).length = e.length) :
    ∀ (steps thin : ℕ) (init : List β),
      (productionFlatChain move init steps thin).length
        = steps * init.length := by
  intro steps
  induction steps with
  | zero => intro thin init; simp [productionFlatChain, runThinned]
  | succ n ih =>
    intro thin init
    have hrec := ih thin (iterateN move thin init)
    simp only [productionFlatChain, runThinned, List.flatten_cons,
      List.length_append] at hrec ⊢
    rw [hrec, iterateN_length move hmove thin init]
    ring

/-- Helper: every row of the flattened chain has `ndim` entries, provided
the move preserves the per-walker vector length. -/
theorem productionFlatChain_rows {β : Type} (nd : ℕ)
    (move : List (List β) → List (List β))
    (hmove : ∀ e, (∀ w ∈ e, w.length = nd) → ∀ w ∈ move e, w.length = nd) :
    ∀ (steps thin : ℕ) (init : List (List β)),
      (∀ w ∈ init, w.length = nd) →
      ∀ row ∈ productionFlatChain move init steps thin,
        row.length = nd := by
  have hiter : ∀ (t : ℕ) (s : List (List β)), (∀ w ∈ s, w.length = nd) →
      ∀ w ∈ iterateN move t s, w.length = nd := by
    intro t
    induction t with
    | zero => intro s hs; exact hs
    | succ m ih => intro s hs; exact ih (move s) (hmove s hs)
  intro steps
  induction steps with
  | zero =>
    intro thin init _ row hrow
    simp [productionFlatChain, runThinned] at hrow
  | succ n ih =>
    intro thin init hinit row hrow
    simp only [productionFlatChain, runThinned, List.flatten_cons,
      List.mem_append] at hrow
    rcases hrow with hrow | hrow
    · exact hiter thin init hinit row hrow
    · exact ih thin (iterateN move thin init) (hiter thin init hinit)
        row hrow

/-- Helper: counting proposals — each stored step advances the state by
`thin` proposals, so a production run makes `steps * thin` proposals per
walker (matching `result.nfev = nwalkers*steps*thin` in the source). -/
theorem runThinned_proposal_count :
    ∀ (steps thin s : ℕ), (runThinned (Nat.succ) s steps thin).2
      = s + steps * thin := by
  have hiter : ∀ (t s : ℕ), iterateN Nat.succ t s = s + t := by
    intro t
    induction t with
    | zero => intro s; rfl
    | succ m ih => intro s; rw [iterateN, ih]; omega
  intro steps
  induction steps with
  | zero => intro thin s; simp [runThinned]
  | succ n ih =>
    intro thin s
    have := ih thin (iterateN Nat.succ thin s)
    simp only [runThinned] at this ⊢
    rw [this, hiter]
    ring

/-- C2 (amended): with emcee's `thin_by` semantics the production phase
makes `steps * thin` proposals per walker and retains `steps` ensemble
snapshots, so the flattened chain stored by `emcee_sampler` has
`steps * nwalkers` rows (NOT `nwalkers * (steps // thin)`), each row with
one entry per free parameter.  In particular `nwalkers=32, steps=100,
thin=2` gives `3200` rows. -/
theorem emcee_chain_shape {β : Type} (nd : ℕ)
    (move : List (List β) → List (List β)) (init : List (List β))
    (steps thin : ℕ)
    (hlen : ∀ e, (move e).length = e.length)
    (hrow : ∀ e, (∀ w ∈ e, w.length = nd) → ∀ w ∈ move e, w.length = nd)
    (hinit : ∀ w ∈ init, w.length = nd) :
    (productionFlatChain move init steps thin).length
        = steps * init.length ∧
    (∀ row ∈ productionFlatChain move init steps thin, row.length = nd) ∧
    (runThinned Nat.succ 0 steps thin).2 = steps * thin :=
  ⟨productionFlatChain_length move hlen steps thin init,
   productionFlatChain_rows nd move hrow steps thin init hinit,
   by rw [runThinned_proposal_count steps thin 0]; omega⟩

/-- C2 witness: the amended statement at `nwalkers = 32`, `steps = 100`,
`thin = 2`, `ndim = 5`, with the identity move: `100 * 32 = 3200` rows of
5 entries, `200` proposals per walker. -/
theorem emcee_chain_shape_witness :
    (productionFlatChain (fun e => e)
        (List.replicate 32 (List.replicate 5 (0:ℚ))) 100 2).length
      = 100 * 32 ∧
    (∀ row ∈ productionFlatChain (fun e => e)
        (List.replicate 32 (List.replicate 5 (0:ℚ))) 100 2,
      row.length = 5) ∧
    (runThinned Nat.succ 0 100 2).2 = 100 * 2 := by
  have h := emcee_chain_shape 5 (fun e => e)
    (List.replicate 32 (List.replicate 5 (0:ℚ))) 100 2
    (fun _ => rfl) (fun _ he => he)
    (by intro w hw; rw [List.eq_of_mem_replicate hw]; simp)
  simpa using h

/-- C2 counterexample: the claim demands `32 * (100 // 2) = 1600` rows
for `nwalkers=32, steps=100, thin=2`; the code stores `100 * 32 = 3200`
rows. -/
theorem emcee_chain_shape_cex :
    (productionFlatChain (fun e => e)
        (List.replicate 32 (List.replicate 5 (0:ℚ))) 100 2).length
      ≠ 32 * (100 / 2) := by
  rw [productionFlatChain_length (fun e => e) (fun _ => rfl) 100 2
    (List.replicate 32 (List.replicate 5 (0:ℚ)))]
  simp

/-! ### C4: `_kw_to_Parameter` keyword-to-parameter conversion

dataset.py lines 76-89.  The lmfit `Parameter` constructor defaults are
`vary=True`, `min=-inf`, `max=+inf`, `user_data=None`; unbounded limits
are modelled as `none`.  Python floats are modelled as rationals. -/

/-- The fields of an lmfit `Parameter` that `_kw_to_Parameter` sets. -/
structure KwParam where
  value : ℚ
  vary : Bool := true
  min : Option ℚ := none
  max : Option ℚ := none
  user_data : Option (ℚ × ℚ) := none
  deriving DecidableEq

/-- The runtime types `_kw_to_Parameter` can receive, in the order its
`isinstance` chain tests them: `float`, `int`, `tuple` (of any length),
`UFloat` (a nominal value with uncertainty), an existing `Parameter`, or
anything else. -/
inductive PyVal where
  | pyFloat (v : ℚ)
  | pyInt (v : ℤ)
  | pyTuple (vs : List ℚ)
  | pyUFloat (n s : ℚ)
  | pyParam (p : KwParam)
  | pyOther
  deriving DecidableEq

/-- Insertion sort step, used to model `numpy`'s sorting in `np.median`. -/
def insertSorted (x : ℚ) : List ℚ → List ℚ
  | [] => [x]
  | y :: ys => if x ≤ y then x :: y :: ys else y :: insertSorted x ys

/-- Ascending sort of a list of rationals. -/
def sortAsc (vs : List ℚ) : List ℚ := vs.foldr insertSorted []

/-- `np.median` of a nonempty sequence: middle element of the sorted
sequence for odd length, mean of the two middle elements for even
length. -/
def npMedian (vs : List ℚ) : ℚ :=
  let s := sortAsc vs
  let n := vs.length
  if n % 2 = 1 then s.getD (n / 2) 0
  else (s.getD (n / 2 - 1) 0 + s.getD (n / 2) 0) / 2

/-- Python `min` over a nonempty sequence. -/
def seqMin : List ℚ → ℚ
  | [] => 0
  | x :: xs => xs.foldl min x

/-- Python `max` over a nonempty sequence. -/
def seqMax : List ℚ → ℚ
  | [] => 0
  | x :: xs => xs.foldl max x

/-- Embedding of `_kw_to_Parameter(name, kwarg)` (dataset.py lines
76-89): the `isinstance` dispatch chain, ending in
`raise ValueError(...)` for unrecognised types. -/
def kw_to_Parameter (name : String) (kwarg : PyVal) :
    Except String KwParam :=
  match kwarg with
  | .pyFloat v => .ok { value := v, vary := false }
  | .pyInt v => .ok { value := (v : ℚ), vary := false }
  | .pyTuple vs =>
    .ok { value := npMedian vs
          min := some (seqMin vs)
          max := some (seqMax vs) }
  | .pyUFloat n s => .ok { value := n, user_data := some (n, s) }
  | .pyParam p => .ok p
  | .pyOther => .error ("Unrecognised type for keyword argument " ++ name)

/-- C4 (amended): `_kw_to_Parameter` accepts the four literal forms with
the claimed semantics — fixed float/int (`vary=False`, unbounded), a
2-tuple `(a,b)` with `a<b` (free, value the midpoint, bounds `(a,b)`), a
3-tuple `(lo,init,hi)` with `lo ≤ init ≤ hi` (free, value `init`, bounds
`(lo,hi)`), a value-with-uncertainty (free, value the central value, a
Gaussian prior attached) — and ADDITIONALLY passes an existing
`Parameter` instance through unchanged; only arguments of any remaining
type make it fail. -/
theorem kw_to_Parameter_characterization :
    (∀ (name : String) (v : ℚ), kw_to_Parameter name (.pyFloat v) =
      .ok { value := v, vary := false }) ∧
    (∀ (name : String) (z : ℤ), kw_to_Parameter name (.pyInt z) =
      .ok { value := (z : ℚ), vary := false }) ∧
    (∀ (name : String) (a b : ℚ), a < b →
      kw_to_Parameter name (.pyTuple [a, b]) =
      .ok { value := (a + b) / 2, vary := true, min := some a,
            max := some b }) ∧
    (∀ (name : String) (lo init hi : ℚ), lo ≤ init → init ≤ hi →
      kw_to_Parameter name (.pyTuple [lo, init, hi]) =
      .ok { value := init, vary := true, min := some lo,
            max := some hi }) ∧
    (∀ (name : String) (n s : ℚ), kw_to_Parameter name (.pyUFloat n s) =
      .ok { value := n, vary := true, user_data := some (n, s) }) ∧
    (∀ (name : String) (p : KwParam),
      kw_to_Parameter name (.pyParam p) = .ok p) ∧
    (∀ name : String, ∃ msg : String,
      kw_to_Parameter name .pyOther = .error msg) := by
  refine ⟨fun _ _ => rfl, fun _ _ => rfl, ?_, ?_, fun _ _ _ => rfl,
    fun _ _ => rfl, fun name => ⟨_, rfl⟩⟩
  · intro name a b hab
    have hs : sortAsc [a, b] = [a, b] := by
      simp only [sortAsc, List.foldr, insertSorted]
      rw [if_pos (le_of_lt hab)]
    have hmed : npMedian [a, b] = (a + b) / 2 := by
      simp [npMedian, hs]
    have hmin : seqMin [a, b] = a := by
      simp [seqMin, min_eq_left (le_of_lt hab)]
    have hmax : seqMax [a, b] = b := by
      simp [seqMax, max_eq_right (le_of_lt hab)]
    simp [kw_to_Parameter, hmed, hmin, hmax]
  · intro name lo init hi h1 h2
    have hs : sortAsc [lo, init, hi] = [lo, init, hi] := by
      simp only [sortAsc, List.foldr, insertSorted]
      rw [if_pos h2]
      rw [insertSorted, if_pos h1]
    have hmed : npMedian [lo, init, hi] = init := by
      simp [npMedian, hs]
    have hmin : seqMin [lo, init, hi] = lo := by
      simp only [seqMin, List.foldl]
      rw [min_eq_left h1, min_eq_left (le_trans h1 h2)]
    have hmax : seqMax [lo, init, hi] = hi := by
      simp only [seqMax, List.foldl]
      rw [max_eq_right h1, max_eq_right h2]
    simp [kw_to_Parameter, hmed, hmin, hmax]

/-- C4 witness: the amended characterization at concrete inputs — the
fixed value `1.234`, the 2-tuple `(-1, 1)`, the 3-tuple
`(0.1, 0.2, 1)` (the doc examples of `lmfit_transit`), a `ufloat(0,1)`
prior, a passed-through `Parameter`, and a rejected argument. -/
theorem kw_to_Parameter_characterization_witness :
    kw_to_Parameter "P" (.pyFloat 1.234) =
      .ok { value := 1.234, vary := false } ∧
    kw_to_Parameter "dfdx" (.pyTuple [-1, 1]) =
      .ok { value := 0, vary := true, min := some (-1), max := some 1 } ∧
    kw_to_Parameter "W" (.pyTuple [0.1, 0.2, 1]) =
      .ok { value := 0.2, vary := true, min := some 0.1,
            max := some 1 } ∧
    kw_to_Parameter "c" (.pyUFloat 0 1) =
      .ok { value := 0, vary := true, user_data := some (0, 1) } ∧
    (∃ msg : String, kw_to_Parameter "b" .pyOther = .error msg) := by
  obtain ⟨h1, _, h3, h4, h5, _, h7⟩ := kw_to_Parameter_characterization
  refine ⟨h1 "P" 1.234, ?_, ?_, h5 "c" 0 1, h7 "b"⟩
  · have := h3 "dfdx" (-1) 1 (by norm_num)
    rw [this]
    norm_num
  · exact h4 "W" 0.1 0.2 1 (by norm_num) (by norm_num)

/-- C4 counterexample: the claim says every argument that is not one of
the four literal forms fails with the invalid-keyword error; an existing
`Parameter` object is not one of the four literal forms, yet the code
accepts it and returns it unchanged. -/
theorem kw_to_Parameter_param_passthrough :
    kw_to_Parameter "T_0" (.pyParam { value := 5 }) =
      .ok { value := 5 } := rfl

/-! ### The posterior evaluators `_log_posterior_jitter` (dataset.py
lines 118-158) and `_log_posterior_SHOTerm` (lines 162-207)

Parameter values are reals; `min`/`max` bounds are `EReal` because the
lmfit defaults are `-inf`/`+inf`.  The composite model's
`model.eval(parcopy, t=time)` is abstracted as a function
`PMap → List EReal` (the time array is captured inside it; entries are
`EReal` so that non-finite outputs are representable).  `NaN` has no
counterpart in the embedding; the `np.isnan(v)` test on parameter values
is therefore always false here and is omitted. -/

/-- The lmfit `Parameter` fields read by the fitting and sampling code:
current value, bounds, optional Gaussian prior `(n, s)` stored in
`user_data`, optional fitted uncertainty, vary flag. -/
structure Par where
  value : ℝ
  min : EReal := ⊥
  max : EReal := ⊤
  user_data : Option (ℝ × ℝ) := none
  stderr : Option EReal := none
  vary : Bool := true

noncomputable instance : Inhabited Par := ⟨{ value := 0 }⟩

/-- An lmfit `Parameters` object: insertion-ordered mapping from
parameter name to parameter. -/
abbrev PMap := List (String × Par)

/-- Dictionary lookup `params[p]`. -/
noncomputable def getPar (m : PMap) (n : String) : Par :=
  (m.lookup n).getD default

/-- In-place update `params[p].value = v` (key order and all other
fields preserved). -/
def setParValue (m : PMap) (n : String) (v : ℝ) : PMap :=
  m.map fun q => if q.1 = n then (q.1, { q.2 with value := v }) else q

/-- The test `(v < par.min) or (v > par.max)` used by both posterior
functions. -/
def outOfBounds (v : ℝ) (p : Par) : Prop :=
  (v : EReal) < p.min ∨ p.max < (v : EReal)

/-- The first loop of both posterior functions: walk `zip vn pos`,
rejecting as soon as a proposed component is outside its parameter's
bounds, otherwise assigning it into the working copy. `none` models the
`return -np.inf` early exit. -/
noncomputable def assignFree (m : PMap) : List (String × ℝ) → Option PMap
  | [] => some m
  | (n, v) :: rest =>
    if outOfBounds v (getPar m n) then none
    else assignFree (setParValue m n v) rest

/-- Unchecked bulk assignment of the proposal into the parameter map. -/
def setAll (m : PMap) : List (String × ℝ) → PMap
  | [] => m
  | (n, v) :: rest => setAll (setParValue m n v) rest

/-- `np.isfinite` holds of every entry (no `-inf`/`+inf`). -/
def allFinite (l : List EReal) : Prop := ∀ x ∈ l, x ≠ ⊥ ∧ x ≠ ⊤

/-- The Gaussian-prior contribution of one parameter:
`-0.5*((u.n - v)/u.s)**2` when a `UFloat` prior is attached, else 0. -/
noncomputable def gaussTerm (p : Par) : ℝ :=
  match p.user_data with
  | some u => -(1 / 2) * ((u.1 - p.value) / u.2) ^ 2
  | none => 0

/-- The second loop of both posterior functions: for every parameter of
the working copy (in insertion order) reject if its value is outside its
own bounds, otherwise accumulate its Gaussian-prior contribution into
the running log-prior.  `none` models the `return -np.inf` early exit. -/
noncomputable def priorLoop : PMap → ℝ → Option ℝ
  | [], acc => some acc
  | q :: rest, acc =>
    if outOfBounds q.2.value q.2 then none
    else priorLoop rest (acc + gaussTerm q.2)

/-- The independent-noise Gaussian log-likelihood with jitter:
`-0.5*sum((flux-fit)**2/s2 + log(2*pi*s2))` with
`s2 = flux_err**2 + jitter**2`. -/
noncomputable def jitterLnlike (flux flux_err fit : List ℝ)
    (jitter : ℝ) : ℝ :=
  -(1 / 2) * (List.zipWith3
    (fun f e m => (f - m) ^ 2 / (e ^ 2 + jitter ^ 2)
      + Real.log (2 * Real.pi * (e ^ 2 + jitter ^ 2)))
    flux flux_err fit).sum

/-- Return type of the posterior functions: either the raw model
prediction (the `return_fit` branch) or a log-probability. -/
inductive PostResult where
  | fitArr (f : List EReal)
  | logp (v : EReal)

/-- Embedding of `_log_posterior_jitter(pos, model, time, flux,
flux_err, params, vn, return_fit)` (dataset.py lines 118-158). -/
noncomputable def log_posterior_jitter (pos : List ℝ)
    (model : PMap → List EReal) (flux flux_err : List ℝ) (params : PMap)
    (vn : List String) (return_fit : Bool) : PostResult :=
  match assignFree params (vn.zip pos) with
  | none => .logp ⊥
  | some parcopy =>
    let fit := model parcopy
    if return_fit then .fitArr fit
    else if ¬ allFinite fit then .logp ⊥
    else
      let lnprior0 := log_prior (getPar parcopy "D").value
        (getPar parcopy "W").value (getPar parcopy "b").value
      if lnprior0 = ⊥ ∨ lnprior0 = ⊤ then .logp ⊥
      else
        match priorLoop parcopy lnprior0.toReal with
        | none => .logp ⊥
        | some lnprior =>
          let jitter := Real.exp (getPar parcopy "log_sigma").value
          .logp ((jitterLnlike flux flux_err (fit.map EReal.toReal)
            jitter + lnprior : ℝ) : EReal)

/-- Embedding of `_log_posterior_SHOTerm(pos, model, time, flux,
flux_err, params, vn, gp, return_fit)` (dataset.py lines 162-207).  The
`gp.set_parameter(...)` calls followed by `gp.log_likelihood(resid)` are
modelled by the abstract function `gpLogLike` of the four hyperparameter
values `log_S0, log_Q, log_omega0, log_sigma` and the residual vector. -/
noncomputable def log_posterior_SHOTerm (pos : List ℝ)
    (model : PMap → List EReal) (flux flux_err : List ℝ) (params : PMap)
    (vn : List String) (gpLogLike : ℝ → ℝ → ℝ → ℝ → List ℝ → ℝ)
    (return_fit : Bool) : PostResult :=
  match assignFree params (vn.zip pos) with
  | none => .logp ⊥
  | some parcopy =>
    let fit := model parcopy
    if return_fit then .fitArr fit
    else if ¬ allFinite fit then .logp ⊥
    else
      let lnprior0 := log_prior (getPar parcopy "D").value
        (getPar parcopy "W").value (getPar parcopy "b").value
      if lnprior0 = ⊥ ∨ lnprior0 = ⊤ then .logp ⊥
      else
        match priorLoop parcopy lnprior0.toReal with
        | none => .logp ⊥
        | some lnprior =>
          let resid := List.zipWith (fun f m => f - m) flux
            (fit.map EReal.toReal)
          .logp ((gpLogLike (getPar parcopy "log_S0").value
            (getPar parcopy "log_Q").value
            (getPar parcopy "log_omega0").value
            (getPar parcopy "log_sigma").value resid + lnprior : ℝ)
            : EReal)

/-- Helper: `params[p].value = v` never changes any parameter's bounds,
so the out-of-bounds test of any name is unaffected by assignments. -/
theorem outOfBounds_setParValue (m : PMap) (n : String) (v : ℝ)
    (q : String) (w : ℝ) :
    outOfBounds w (getPar (setParValue m n v) q) ↔
      outOfBounds w (getPar m q) := by
  induction m with
  | nil => rfl
  | cons head tail ih =>
    obtain ⟨k, p⟩ := head
    have hmap : setParValue ((k, p) :: tail) n v
        = (k, if k = n then { p with value := v } else p)
          :: setParValue tail n v := by
      by_cases hk : k = n <;> simp [setParValue, hk]
    rw [hmap]
    by_cases hq : q = k
    · subst hq
      have h1 : getPar ((q, if q = n then { p with value := v } else p)
            :: setParValue tail n v) q
          = if q = n then { p with value := v } else p := by
        simp [getPar, List.lookup]
      have h2 : getPar ((q, p) :: tail) q = p := by
        simp [getPar, List.lookup]
      rw [h1, h2]
      by_cases hn : q = n <;> simp [hn, outOfBounds]
    · have h1 : getPar ((k, if k = n then { p with value := v } else p)
            :: setParValue tail n v) q
          = getPar (setParValue tail n v) q := by
        simp [getPar, List.lookup, beq_false_of_ne hq]
      have h2 : getPar ((k, p) :: tail) q = getPar tail q := by
        simp [getPar, List.lookup, beq_false_of_ne hq]
      rw [h1, h2]
      exact ih

/-- Helper: the assignment loop rejects (returns `none`) whenever some
proposed component is outside its parameter's bounds. -/
theorem assignFree_none_of_bad (l : List (String × ℝ)) :
    ∀ m : PMap, (∃ pv ∈ l, outOfBounds pv.2 (getPar m pv.1)) →
      assignFree m l = none := by
  induction l with
  | nil => rintro m ⟨pv, hpv, _⟩; cases hpv
  | cons head tail ih =>
    rintro m ⟨pv, hpv, hbad⟩
    obtain ⟨n, v⟩ := head
    show (if outOfBounds v (getPar m n) then none
      else assignFree (setParValue m n v) tail) = none
    rcases List.mem_cons.mp hpv with rfl | hmem
    · rw [if_pos hbad]
    · by_cases hh : outOfBounds v (getPar m n)
      · rw [if_pos hh]
      · rw [if_neg hh]
        exact ih (setParValue m n v)
          ⟨pv, hmem, (outOfBounds_setParValue m n v pv.1 pv.2).mpr hbad⟩

/-- Helper: the assignment loop succeeds, producing exactly the bulk
update `setAll`, whenever every proposed component is within bounds. -/
theorem assignFree_some_of_good (l : List (String × ℝ)) :
    ∀ m : PMap, (∀ pv ∈ l, ¬ outOfBounds pv.2 (getPar m pv.1)) →
      assignFree m l = some (setAll m l) := by
  induction l with
  | nil => intro m _; rfl
  | cons head tail ih =>
    intro m hgood
    obtain ⟨n, v⟩ := head
    show (if outOfBounds v (getPar m n) then none
      else assignFree (setParValue m n v) tail) = some (setAll m ((n, v) :: tail))
    rw [if_neg (hgood (n, v) (List.mem_cons_self _ _))]
    exact ih (setParValue m n v) fun pv hpv =>
      fun hbad => hgood pv (List.mem_cons_of_mem _ hpv)
        ((outOfBounds_setParValue m n v pv.1 pv.2).mp hbad)

/-- Helper: the per-parameter prior loop rejects whenever some parameter
of the working copy has a value outside its own bounds, whatever the
accumulated log-prior. -/
theorem priorLoop_none_of_bad (m : PMap)
    (h : ∃ q ∈ m, outOfBounds q.2.value q.2) :
    ∀ acc : ℝ, priorLoop m acc = none := by
  induction m with
  | nil => obtain ⟨q, hq, _⟩ := h; cases hq
  | cons head tail ih =>
    intro acc
    show (if outOfBounds head.2.value head.2 then none
      else priorLoop tail (acc + gaussTerm head.2)) = none
    obtain ⟨q, hq, hbad⟩ := h
    rcases List.mem_cons.mp hq with rfl | hmem
    · rw [if_pos hbad]
    · by_cases hh : outOfBounds head.2.value head.2
      · rw [if_pos hh]
      · rw [if_neg hh]
        exact ih ⟨q, hmem, hbad⟩ _

/-- C6: in log-posterior mode (`return_fit = False`) both posterior
variants return exactly `-∞` (they are total functions — no exception
path exists in the embedding) whenever (i) some component of the
proposal is outside its parameter's bounds, or (ii) some model output is
non-finite, or (iii) after assignment some parameter of the working copy
(including derived ones) is outside its own bounds.  Rejection (i) holds
for either value of `return_fit`. -/
theorem log_posterior_rejection :
    (∀ pos model flux flux_err params vn rf,
      (∃ pv ∈ vn.zip pos, outOfBounds pv.2 (getPar params pv.1)) →
      log_posterior_jitter pos model flux flux_err params vn rf
        = .logp ⊥) ∧
    (∀ pos model flux flux_err params vn parcopy,
      assignFree params (vn.zip pos) = some parcopy →
      ¬ allFinite (model parcopy) →
      log_posterior_jitter pos model flux flux_err params vn false
        = .logp ⊥) ∧
    (∀ pos model flux flux_err params vn parcopy,
      assignFree params (vn.zip pos) = some parcopy →
      (∃ q ∈ parcopy, outOfBounds q.2.value q.2) →
      log_posterior_jitter pos model flux flux_err params vn false
        = .logp ⊥) ∧
    (∀ pos model flux flux_err params vn gpLogLike rf,
      (∃ pv ∈ vn.zip pos, outOfBounds pv.2 (getPar params pv.1)) →
      log_posterior_SHOTerm pos model flux flux_err params vn gpLogLike rf
        = .logp ⊥) ∧
    (∀ pos model flux flux_err params vn gpLogLike parcopy,
      assignFree params (vn.zip pos) = some parcopy →
      ¬ allFinite (model parcopy) →
      log_posterior_SHOTerm pos model flux flux_err params vn gpLogLike
        false = .logp ⊥) ∧
    (∀ pos model flux flux_err params vn gpLogLike parcopy,
      assignFree params (vn.zip pos) = some parcopy →
      (∃ q ∈ parcopy, outOfBounds q.2.value q.2) →
      log_posterior_SHOTerm pos model flux flux_err params vn gpLogLike
        false = .logp ⊥) := by
  refine ⟨?_, ?_, ?_, ?_, ?_, ?_⟩
  · intro pos model flux flux_err params vn rf h
    unfold log_posterior_jitter
    rw [assignFree_none_of_bad _ params h]
  · intro pos model flux flux_err params vn parcopy hassign hfit
    unfold log_posterior_jitter
    rw [hassign]
    simp only [Bool.false_eq_true, if_false, if_pos hfit]
  · intro pos model flux flux_err params vn parcopy hassign hbad
    unfold log_posterior_jitter
    rw [hassign]
    simp only [Bool.false_eq_true, if_false]
    by_cases hfit : ¬ allFinite (model parcopy)
    · rw [if_pos hfit]
    rw [if_neg hfit]
    by_cases hlp : log_prior (getPar parcopy "D").value
        (getPar parcopy "W").value (getPar parcopy "b").value = ⊥ ∨
        log_prior (getPar parcopy "D").value (getPar parcopy "W").value
        (getPar parcopy "b").value = ⊤
    · rw [if_pos hlp]
    · rw [if_neg hlp, priorLoop_none_of_bad parcopy hbad]
  · intro pos model flux flux_err params vn gpLogLike rf h
    unfold log_posterior_SHOTerm
    rw [assignFree_none_of_bad _ params h]
  · intro pos model flux flux_err params vn gpLogLike parcopy hassign hfit
    unfold log_posterior_SHOTerm
    rw [hassign]
    simp only [Bool.false_eq_true, if_false, if_pos hfit]
  · intro pos model flux flux_err params vn gpLogLike parcopy hassign hbad
    unfold log_posterior_SHOTerm
    rw [hassign]
    simp only [Bool.false_eq_true, if_false]
    by_cases hfit : ¬ allFinite (model parcopy)
    · rw [if_pos hfit]
    rw [if_neg hfit]
    by_cases hlp : log_prior (getPar parcopy "D").value
        (getPar parcopy "W").value (getPar parcopy "b").value = ⊥ ∨
        log_prior (getPar parcopy "D").value (getPar parcopy "W").value
        (getPar parcopy "b").value = ⊤
    · rw [if_pos hlp]
    · rw [if_neg hlp, priorLoop_none_of_bad parcopy hbad]

/-- A demonstration parameter with value `0.5` bounded to `[0, 1]`. -/
noncomputable def demoPar : Par :=
  { value := 0.5, min := ((0:ℝ) : EReal), max := ((1:ℝ) : EReal) }

/-- A parameter whose current value `5` violates its own bounds
`[0, 1]` (as a derived parameter can after assignment). -/
noncomputable def badPar : Par :=
  { value := 5, min := ((0:ℝ) : EReal), max := ((1:ℝ) : EReal) }

/-- A one-parameter set. -/
noncomputable def demoMap : PMap := [("x", demoPar)]

/-- A two-parameter set whose second (non-free) parameter is out of its
own bounds. -/
noncomputable def demoMapB : PMap := [("x", demoPar), ("k", badPar)]

/-- Helper: lookup of `"x"` in the demo maps. -/
theorem getPar_demo_x : getPar demoMap "x" = demoPar ∧
    getPar demoMapB "x" = demoPar := by
  constructor <;> simp [getPar, demoMap, demoMapB, List.lookup]

/-- Helper: `0.6` is within `demoPar`'s bounds. -/
theorem not_outOfBounds_demoPar : ¬ outOfBounds (0.6:ℝ) demoPar := by
  have hm : demoPar.min = ((0:ℝ) : EReal) := rfl
  have hM : demoPar.max = ((1:ℝ) : EReal) := rfl
  rintro (h | h)
  · rw [hm] at h
    exact absurd (EReal.coe_lt_coe_iff.mp h) (by norm_num)
  · rw [hM] at h
    exact absurd (EReal.coe_lt_coe_iff.mp h) (by norm_num)

/-- Helper: `2` is above `demoPar`'s upper bound. -/
theorem outOfBounds_two_demoPar : outOfBounds (2:ℝ) demoPar := by
  have hM : demoPar.max = ((1:ℝ) : EReal) := rfl
  exact Or.inr (by rw [hM]; exact EReal.coe_lt_coe_iff.mpr (by norm_num))

/-- Helper: `badPar`'s own value violates its own bounds. -/
theorem outOfBounds_badPar : outOfBounds badPar.value badPar := by
  have hM : badPar.max = ((1:ℝ) : EReal) := rfl
  have hv : badPar.value = (5:ℝ) := rfl
  exact Or.inr (by rw [hM, hv]; exact EReal.coe_lt_coe_iff.mpr (by norm_num))

/-- Helper: every component of the proposal `[0.6]` for `vn = ["x"]` is
within bounds, for either demo map. -/
theorem demo_good_assignment :
    (∀ pv ∈ (["x"].zip [(0.6:ℝ)]), ¬ outOfBounds pv.2 (getPar demoMap pv.1)) ∧
    (∀ pv ∈ (["x"].zip [(0.6:ℝ)]), ¬ outOfBounds pv.2 (getPar demoMapB pv.1)) := by
  constructor <;>
  · intro pv hpv
    have : pv = ("x", (0.6:ℝ)) := by simpa using hpv
    subst this
    first
    | exact getPar_demo_x.1 ▸ not_outOfBounds_demoPar
    | exact getPar_demo_x.2 ▸ not_outOfBounds_demoPar

/-- Helper: the non-finite model output `[⊤]` fails `np.isfinite`. -/
theorem not_allFinite_top : ¬ allFinite [(⊤ : EReal)] :=
  fun h => (h ⊤ (List.mem_singleton.mpr rfl)).2 rfl

/-- Helper: the out-of-bounds entry survives the assignment to `x` in
`demoMapB`. -/
theorem badPar_mem_setAll :
    ("k", badPar) ∈ setAll demoMapB (["x"].zip [(0.6:ℝ)]) := by
  have hset : setAll demoMapB (["x"].zip [(0.6:ℝ)])
      = [("x", { demoPar with value := 0.6 }), ("k", badPar)] := by
    show setParValue demoMapB "x" 0.6 = _
    simp [setParValue, demoMapB]
  rw [hset]
  exact List.mem_cons_of_mem _ (List.mem_cons_self _ _)

/-- C6 witness: the rejection theorem applied at concrete inputs — an
out-of-bounds proposal component, a non-finite model output, and a
working copy containing a parameter outside its own bounds, for both
posterior variants. -/
theorem log_posterior_rejection_witness :
    log_posterior_jitter [2] (fun _ => []) [] [] demoMap ["x"] false
      = .logp ⊥ ∧
    log_posterior_jitter [0.6] (fun _ => [⊤]) [] [] demoMap ["x"] false
      = .logp ⊥ ∧
    log_posterior_jitter [0.6] (fun _ => []) [] [] demoMapB ["x"] false
      = .logp ⊥ ∧
    log_posterior_SHOTerm [2] (fun _ => []) [] [] demoMap ["x"]
      (fun _ _ _ _ _ => 0) false = .logp ⊥ ∧
    log_posterior_SHOTerm [0.6] (fun _ => [⊤]) [] [] demoMap ["x"]
      (fun _ _ _ _ _ => 0) false = .logp ⊥ ∧
    log_posterior_SHOTerm [0.6] (fun _ => []) [] [] demoMapB ["x"]
      (fun _ _ _ _ _ => 0) false = .logp ⊥ := by
  obtain ⟨c1, c2, c3, c4, c5, c6⟩ := log_posterior_rejection
  have hbadpos : ∃ pv ∈ (["x"].zip [(2:ℝ)]),
      outOfBounds pv.2 (getPar demoMap pv.1) := by
    refine ⟨("x", (2:ℝ)), List.mem_cons_self _ _, ?_⟩
    rw [show getPar demoMap "x" = demoPar from getPar_demo_x.1]
    exact outOfBounds_two_demoPar
  have hassign1 : assignFree demoMap (["x"].zip [(0.6:ℝ)])
      = some (setAll demoMap (["x"].zip [(0.6:ℝ)])) :=
    assignFree_some_of_good _ _ demo_good_assignment.1
  have hassignB : assignFree demoMapB (["x"].zip [(0.6:ℝ)])
      = some (setAll demoMapB (["x"].zip [(0.6:ℝ)])) :=
    assignFree_some_of_good _ _ demo_good_assignment.2
  have hbadq : ∃ q ∈ setAll demoMapB (["x"].zip [(0.6:ℝ)]),
      outOfBounds q.2.value q.2 :=
    ⟨("k", badPar), badPar_mem_setAll, outOfBounds_badPar⟩
  exact ⟨c1 _ _ _ _ _ _ _ hbadpos,
    c2 _ _ _ _ _ _ _ hassign1 not_allFinite_top,
    c3 _ _ _ _ _ _ _ hassignB hbadq,
    c4 _ _ _ _ _ _ _ _ hbadpos,
    c5 _ _ _ _ _ _ _ _ hassign1 not_allFinite_top,
    c6 _ _ _ _ _ _ _ _ hassignB hbadq⟩

/-- C8 (amended): with `return_fit=True` both posterior variants return
the raw model prediction — the model evaluated at the working copy
holding the proposal — short-circuiting immediately after model
evaluation, before any finiteness check, prior or likelihood
computation, PROVIDED every proposed component is within its parameter's
bounds; an out-of-bounds proposal still returns `-∞` because the bounds
check precedes model evaluation. -/
theorem return_fit_shortcircuit :
    (∀ pos model flux flux_err params vn,
      (∀ pv ∈ vn.zip pos, ¬ outOfBounds pv.2 (getPar params pv.1)) →
      log_posterior_jitter pos model flux flux_err params vn true
        = .fitArr (model (setAll params (vn.zip pos)))) ∧
    (∀ pos model flux flux_err params vn gpLogLike,
      (∀ pv ∈ vn.zip pos, ¬ outOfBounds pv.2 (getPar params pv.1)) →
      log_posterior_SHOTerm pos model flux flux_err params vn gpLogLike
        true = .fitArr (model (setAll params (vn.zip pos)))) := by
  constructor
  · intro pos model flux flux_err params vn h
    unfold log_posterior_jitter
    rw [assignFree_some_of_good _ _ h]
    simp
  · intro pos model flux flux_err params vn gpLogLike h
    unfold log_posterior_SHOTerm
    rw [assignFree_some_of_good _ _ h]
    simp

/-- C8 witness: the short-circuit theorem applied at a concrete
in-bounds input for both variants, with a model returning `[2]`. -/
theorem return_fit_shortcircuit_witness :
    log_posterior_jitter [0.6] (fun _ => [((2:ℝ) : EReal)]) [] []
      demoMap ["x"] true = .fitArr [((2:ℝ) : EReal)] ∧
    log_posterior_SHOTerm [0.6] (fun _ => [((2:ℝ) : EReal)]) [] []
      demoMap ["x"] (fun _ _ _ _ _ => 0) true
      = .fitArr [((2:ℝ) : EReal)] :=
  ⟨return_fit_shortcircuit.1 [0.6] (fun _ => [((2:ℝ) : EReal)]) [] []
      demoMap ["x"] demo_good_assignment.1,
   return_fit_shortcircuit.2 [0.6] (fun _ => [((2:ℝ) : EReal)]) [] []
      demoMap ["x"] (fun _ _ _ _ _ => 0) demo_good_assignment.1⟩

/-- C8 counterexample: the claim says that with `return_fit=True` EVERY
proposed vector yields the raw model prediction; for the out-of-bounds
proposal `[2]` against bounds `[0,1]` the code instead returns `-∞`
(the bounds check runs before model evaluation), not the model
prediction `[1]`. -/
theorem return_fit_not_universal :
    log_posterior_jitter [2] (fun _ => [((1:ℝ) : EReal)]) [] [] demoMap
      ["x"] true ≠ .fitArr [((1:ℝ) : EReal)] := by
  have hbadpos : ∃ pv ∈ (["x"].zip [(2:ℝ)]),
      outOfBounds pv.2 (getPar demoMap pv.1) := by
    refine ⟨("x", (2:ℝ)), List.mem_cons_self _ _, ?_⟩
    rw [show getPar demoMap "x" = demoPar from getPar_demo_x.1]
    exact outOfBounds_two_demoPar
  have hbot : log_posterior_jitter [2] (fun _ => [((1:ℝ) : EReal)]) []
      [] demoMap ["x"] true = .logp ⊥ := by
    unfold log_posterior_jitter
    rw [assignFree_none_of_bad _ demoMap hbadpos]
  rw [hbot]
  simp

/-! ### C10: the posterior evaluation does not mutate the caller's
parameter set

To make the Python object mutation visible, the posterior functions are
re-embedded against an explicit heap of `Parameters` objects: references
are indices into a list of `PMap`s, `params.copy()` allocates a fresh
reference, and `parcopy[p].value = v` writes through the working copy's
reference.  The frame theorem states that every reference that existed
before the call — in particular the caller's `params` — is unchanged in
the final heap. -/

/-- A heap of `Parameters` objects, addressed by allocation index. -/
abbrev Heap := List PMap

/-- Dereference. -/
def hGet (h : Heap) (r : ℕ) : PMap := h.getD r []

/-- Overwrite the object at reference `r`. -/
def hSet (h : Heap) (r : ℕ) (m : PMap) : Heap := h.set r m

/-- `params.copy()`: allocate a fresh reference holding a copy of the
object at `r`. -/
def hCopy (h : Heap) (r : ℕ) : Heap × ℕ := (h ++ [hGet h r], h.length)

/-- `parcopy[p].value = v` through reference `r`. -/
def hSetValue (h : Heap) (r : ℕ) (n : String) (v : ℝ) : Heap :=
  hSet h r (setParValue (hGet h r) n v)

/-- The first loop of the posterior functions, writing through the
working copy's reference `r`; the flag records whether the loop ran to
completion (`false` models the `return -np.inf` early exit). -/
noncomputable def assignFreeH (r : ℕ) :
    List (String × ℝ) → Heap → Heap × Bool
  | [], h => (h, true)
  | (n, v) :: rest, h =>
    if outOfBounds v (getPar (hGet h r) n) then (h, false)
    else assignFreeH r rest (hSetValue h r n v)

/-- Heap-level embedding of `_log_posterior_jitter`: `params` lives at
reference `rparams`; the returned heap is the heap after the call. -/
noncomputable def log_posterior_jitter_heap (h : Heap) (rparams : ℕ)
    (pos : List ℝ) (model : PMap → List EReal) (flux flux_err : List ℝ)
    (vn : List String) (return_fit : Bool) : Heap × PostResult :=
  let a := hCopy h rparams
  let s := assignFreeH a.2 (vn.zip pos) a.1
  -- every step after the assignment loop only reads, so the final heap
  -- is the loop's heap in all of the code's return branches
  (s.1,
    if s.2 = false then .logp ⊥
    else
      let parcopy := hGet s.1 a.2
      let fit := model parcopy
      if return_fit then .fitArr fit
      else if ¬ allFinite fit then .logp ⊥
      else
        let lnprior0 := log_prior (getPar parcopy "D").value
          (getPar parcopy "W").value (getPar parcopy "b").value
        if lnprior0 = ⊥ ∨ lnprior0 = ⊤ then .logp ⊥
        else
          match priorLoop parcopy lnprior0.toReal with
          | none => .logp ⊥
          | some lnprior =>
            .logp ((jitterLnlike flux flux_err
              (fit.map EReal.toReal)
              (Real.exp (getPar parcopy "log_sigma").value)
              + lnprior : ℝ) : EReal))

/-- Heap-level embedding of `_log_posterior_SHOTerm` (the GP object is a
separate object, abstracted as the pure function `gpLogLike`). -/
noncomputable def log_posterior_SHOTerm_heap (h : Heap) (rparams : ℕ)
    (pos : List ℝ) (model : PMap → List EReal) (flux flux_err : List ℝ)
    (vn : List String) (gpLogLike : ℝ → ℝ → ℝ → ℝ → List ℝ → ℝ)
    (return_fit : Bool) : Heap × PostResult :=
  let a := hCopy h rparams
  let s := assignFreeH a.2 (vn.zip pos) a.1
  (s.1,
    if s.2 = false then .logp ⊥
    else
      let parcopy := hGet s.1 a.2
      let fit := model parcopy
      if return_fit then .fitArr fit
      else if ¬ allFinite fit then .logp ⊥
      else
        let lnprior0 := log_prior (getPar parcopy "D").value
          (getPar parcopy "W").value (getPar parcopy "b").value
        if lnprior0 = ⊥ ∨ lnprior0 = ⊤ then .logp ⊥
        else
          match priorLoop parcopy lnprior0.toReal with
          | none => .logp ⊥
          | some lnprior =>
            .logp ((gpLogLike (getPar parcopy "log_S0").value
              (getPar parcopy "log_Q").value
              (getPar parcopy "log_omega0").value
              (getPar parcopy "log_sigma").value
              (List.zipWith (fun f m => f - m) flux
                (fit.map EReal.toReal))
              + lnprior : ℝ) : EReal))

/-- Helper: writing through reference `r` leaves every other reference
unchanged. -/
theorem hGet_hSetValue_ne (h : Heap) (r j : ℕ) (n : String) (v : ℝ)
    (hne : j ≠ r) : hGet (hSetValue h r n v) j = hGet h j := by
  show (List.set h r _).getD j [] = h.getD j []
  rw [List.getD_eq_getElem?_getD, List.getD_eq_getElem?_getD,
    List.getElem?_set_ne (fun hh => hne hh.symm)]

/-- Helper: the assignment loop writes only through reference `r`. -/
theorem assignFreeH_frame (r : ℕ) (l : List (String × ℝ)) :
    ∀ (h : Heap) (j : ℕ), j ≠ r →
      hGet (assignFreeH r l h).1 j = hGet h j := by
  induction l with
  | nil => intro h j _; rfl
  | cons head tail ih =>
    intro h j hj
    obtain ⟨n, v⟩ := head
    show hGet (if outOfBounds v (getPar (hGet h r) n) then (h, false)
      else assignFreeH r tail (hSetValue h r n v)).1 j = hGet h j
    by_cases hc : outOfBounds v (getPar (hGet h r) n)
    · rw [if_pos hc]
    · rw [if_neg hc, ih (hSetValue h r n v) j hj,
        hGet_hSetValue_ne h r j n v hj]

/-- Helper: allocation does not disturb existing references. -/
theorem hGet_hCopy (h : Heap) (r j : ℕ) (hj : j < h.length) :
    hGet (hCopy h r).1 j = hGet h j := by
  show (h ++ [hGet h r]).getD j [] = h.getD j []
  rw [List.getD_eq_getElem?_getD, List.getD_eq_getElem?_getD,
    List.getElem?_append_left hj]

/-- Helper: the final heap of the heap-level jitter posterior is the
heap right after the assignment loop (no later step writes). -/
theorem log_posterior_jitter_heap_fst (h : Heap) (rparams : ℕ)
    (pos : List ℝ) (model : PMap → List EReal)
    (flux flux_err : List ℝ) (vn : List String) (return_fit : Bool) :
    (log_posterior_jitter_heap h rparams pos model flux flux_err vn
      return_fit).1
      = (assignFreeH (hCopy h rparams).2 (vn.zip pos)
          (hCopy h rparams).1).1 := rfl

/-- Helper: same for the GP variant. -/
theorem log_posterior_SHOTerm_heap_fst (h : Heap) (rparams : ℕ)
    (pos : List ℝ) (model : PMap → List EReal)
    (flux flux_err : List ℝ) (vn : List String)
    (gpLogLike : ℝ → ℝ → ℝ → ℝ → List ℝ → ℝ) (return_fit : Bool) :
    (log_posterior_SHOTerm_heap h rparams pos model flux flux_err vn
      gpLogLike return_fit).1
      = (assignFreeH (hCopy h rparams).2 (vn.zip pos)
          (hCopy h rparams).1).1 := rfl

/-- C10: a log-posterior evaluation never mutates the `Parameters`
object passed to it — both variants allocate a private working copy,
assign proposed values only into that copy, and every pre-existing
reference (in particular the caller's parameter set, with all its
fields) holds exactly the same object after the call as before it. -/
theorem log_posterior_no_mutation :
    (∀ (h : Heap) (rparams : ℕ) (pos : List ℝ)
      (model : PMap → List EReal) (flux flux_err : List ℝ)
      (vn : List String) (rf : Bool) (j : ℕ), j < h.length →
      hGet ((log_posterior_jitter_heap h rparams pos model flux flux_err
        vn rf).1) j = hGet h j) ∧
    (∀ (h : Heap) (rparams : ℕ) (pos : List ℝ)
      (model : PMap → List EReal) (flux flux_err : List ℝ)
      (vn : List String) (gpLogLike : ℝ → ℝ → ℝ → ℝ → List ℝ → ℝ)
      (rf : Bool) (j : ℕ), j < h.length →
      hGet ((log_posterior_SHOTerm_heap h rparams pos model flux
        flux_err vn gpLogLike rf).1) j = hGet h j) := by
  constructor
  · intro h rparams pos model flux flux_err vn rf j hj
    rw [log_posterior_jitter_heap_fst]
    calc hGet (assignFreeH (hCopy h rparams).2 (vn.zip pos)
            (hCopy h rparams).1).1 j
        = hGet (hCopy h rparams).1 j :=
          assignFreeH_frame (hCopy h rparams).2 (vn.zip pos)
            (hCopy h rparams).1 j (Nat.ne_of_lt hj)
      _ = hGet h j := hGet_hCopy h rparams j hj
  · intro h rparams pos model flux flux_err vn gpLogLike rf j hj
    rw [log_posterior_SHOTerm_heap_fst]
    calc hGet (assignFreeH (hCopy h rparams).2 (vn.zip pos)
            (hCopy h rparams).1).1 j
        = hGet (hCopy h rparams).1 j :=
          assignFreeH_frame (hCopy h rparams).2 (vn.zip pos)
            (hCopy h rparams).1 j (Nat.ne_of_lt hj)
      _ = hGet h j := hGet_hCopy h rparams j hj

/-- C10 witness: the frame theorem applied at a concrete heap holding
one caller parameter set, for both variants. -/
theorem log_posterior_no_mutation_witness :
    hGet ((log_posterior_jitter_heap [demoMap] 0 [0.6] (fun _ => [])
      [] [] ["x"] false).1) 0 = hGet [demoMap] 0 ∧
    hGet ((log_posterior_SHOTerm_heap [demoMap] 0 [0.6] (fun _ => [])
      [] [] ["x"] (fun _ _ _ _ _ => 0) false).1) 0 = hGet [demoMap] 0 :=
  ⟨log_posterior_no_mutation.1 [demoMap] 0 [0.6] (fun _ => []) [] []
      ["x"] false 0 (by simp),
   log_posterior_no_mutation.2 [demoMap] 0 [0.6] (fun _ => []) [] []
      ["x"] (fun _ _ _ _ _ => 0) false 0 (by simp)⟩

/-! ### C5: derived-parameter expressions installed by the transit fit

`Dataset.lmfit_transit` (dataset.py lines 796-805) installs lmfit
expression parameters

    k      = sqrt(D)
    aR     = sqrt((1+k)**2-b**2)/W/pi
    sini   = sqrt(1 - (b/aR)**2)
    logrho = log10(4.3275e-4*((1+k)**2-b**2)**1.5/W**3/P**2)
    e      = f_c**2 + f_s**2
    q_1    = (1-h_2)**2
    q_2    = (h_1-h_2)/(1-h_2)

(`lmfit_eclipse`, lines 1071-1074, installs the same `k`, `aR`, `sini`,
`e`).  An lmfit expression parameter has `vary=False` and its value is
recomputed from its dependencies' current values on every evaluation, so
the expressions below are functions of the current primary values,
resolved in insertion order (`k` before `aR` before `sini`). -/

/-- The primary parameters feeding the derived expressions. -/
structure Primaries where
  D : ℝ
  W : ℝ
  b : ℝ
  P : ℝ
  f_c : ℝ
  f_s : ℝ
  h_1 : ℝ
  h_2 : ℝ

/-- Source expression `sqrt(D)`. -/
noncomputable def deriv_k (pr : Primaries) : ℝ := Real.sqrt pr.D

/-- Source expression `sqrt((1+k)**2-b**2)/W/pi`. -/
noncomputable def deriv_aR (pr : Primaries) : ℝ :=
  Real.sqrt ((1 + deriv_k pr) ^ 2 - pr.b ^ 2) / pr.W / Real.pi

/-- Source expression `sqrt(1 - (b/aR)**2)`. -/
noncomputable def deriv_sini (pr : Primaries) : ℝ :=
  Real.sqrt (1 - (pr.b / deriv_aR pr) ^ 2)

/-- Source expression `log10(4.3275e-4*((1+k)**2-b**2)**1.5/W**3/P**2)`. -/
noncomputable def deriv_logrho (pr : Primaries) : ℝ :=
  Real.logb 10 (4.3275e-4 * ((1 + deriv_k pr) ^ 2 - pr.b ^ 2)
    ^ (1.5 : ℝ) / pr.W ^ 3 / pr.P ^ 2)

/-- Source expression `f_c**2 + f_s**2`. -/
noncomputable def deriv_e (pr : Primaries) : ℝ := pr.f_c ^ 2 + pr.f_s ^ 2

/-- Source expression `(1-h_2)**2`. -/
noncomputable def deriv_q_1 (pr : Primaries) : ℝ := (1 - pr.h_2) ^ 2

/-- Source expression `(h_1-h_2)/(1-h_2)`. -/
noncomputable def deriv_q_2 (pr : Primaries) : ℝ :=
  (pr.h_1 - pr.h_2) / (1 - pr.h_2)

/-- C5: for every current assignment of the primaries `D, W, b, P, f_c,
f_s, h_1, h_2`, the derived parameters installed by the transit fit
equal exactly the claimed closed-form formulas of those current values,
with `k = sqrt D` — i.e. they are recomputed as pure functions of the
primaries on every evaluation (lmfit expression parameters have
`vary=False`, so the optimizer and the sampler never perturb them
directly). -/
theorem derived_formulas (pr : Primaries) :
    deriv_k pr = Real.sqrt pr.D ∧
    deriv_aR pr = Real.sqrt ((1 + Real.sqrt pr.D) ^ 2 - pr.b ^ 2)
      / (pr.W * Real.pi) ∧
    deriv_sini pr = Real.sqrt (1 - (pr.b /
      (Real.sqrt ((1 + Real.sqrt pr.D) ^ 2 - pr.b ^ 2)
        / (pr.W * Real.pi))) ^ 2) ∧
    deriv_logrho pr = Real.logb 10
      (4.3275e-4 * ((1 + Real.sqrt pr.D) ^ 2 - pr.b ^ 2) ^ (1.5 : ℝ)
        / pr.W ^ 3 / pr.P ^ 2) ∧
    deriv_e pr = pr.f_c ^ 2 + pr.f_s ^ 2 ∧
    deriv_q_1 pr = (1 - pr.h_2) ^ 2 ∧
    deriv_q_2 pr = (pr.h_1 - pr.h_2) / (1 - pr.h_2) := by
  refine ⟨rfl, ?_, ?_, rfl, rfl, rfl, rfl⟩
  · unfold deriv_aR deriv_k
    rw [div_div]
  · unfold deriv_sini deriv_aR deriv_k
    rw [div_div]

/-- The end-to-end scenario values of spec section 8:
`D=0.01, W=0.1, b=0.3, P=1` with the default limb-darkening values. -/
noncomputable def demoPrimaries : Primaries where
  D := 0.01
  W := 0.1
  b := 0.3
  P := 1
  f_c := 0
  f_s := 0
  h_1 := 0.7224
  h_2 := 0.6713

/-- C5 witness: the formula equivalences at a concrete primary
assignment. -/
theorem derived_formulas_witness :
    deriv_k demoPrimaries = Real.sqrt 0.01 ∧
    deriv_aR demoPrimaries
      = Real.sqrt ((1 + Real.sqrt 0.01) ^ 2 - (0.3:ℝ) ^ 2)
        / ((0.1:ℝ) * Real.pi) := by
  have h := derived_formulas demoPrimaries
  exact ⟨h.1, h.2.1⟩

/-! ### C7: the least-squares residual vector and its partition

`_chisq_prior` (dataset.py lines 700-706) builds the residual vector
handed to `lmfit.minimize`; lines 828-840 post-process the returned
result: record `bestfit` and `rms = (flux-fit).std()`, then split the
final residual vector into its data part and its prior part. -/

/-- Scaled data residuals `(flux - model.eval(params,t=time))/flux_err`. -/
noncomputable def dataResiduals (flux fit flux_err : List ℝ) : List ℝ :=
  List.zipWith3 (fun f m e => (f - m) / e) flux fit flux_err

/-- The prior residuals `(u.n - params[p].value)/u.s`, one per parameter
carrying a `UFloat` prior, in parameter (insertion) order. -/
noncomputable def priorResiduals (m : PMap) : List ℝ :=
  m.filterMap fun q => q.2.user_data.map fun u => (u.1 - q.2.value) / u.2

/-- Embedding of `_chisq_prior(params, *args)`: the scaled data
residuals with the prior residuals appended after them. -/
noncomputable def chisq_prior (m : PMap) (modelEval : PMap → List ℝ)
    (flux flux_err : List ℝ) : List ℝ :=
  dataResiduals flux (modelEval m) flux_err ++ priorResiduals m

/-- `np.mean`. -/
noncomputable def listMean (xs : List ℝ) : ℝ := xs.sum / xs.length

/-- `np.std` (population standard deviation, as `numpy`'s default). -/
noncomputable def listStd (xs : List ℝ) : ℝ :=
  Real.sqrt (((xs.map fun x => (x - listMean xs) ^ 2).sum) / xs.length)

/-- Root mean square.  Modelled from the spec: the claim says "an RMS of
the data residuals is recorded"; this is the literal RMS, for comparison
with what the code records. -/
noncomputable def rmsOf (xs : List ℝ) : ℝ :=
  Real.sqrt (((xs.map fun x => x ^ 2).sum) / xs.length)

/-- The fields of the lmfit result that lines 831-840 set. -/
structure LmfitPost where
  bestfit : List ℝ
  rms : ℝ
  residual : List ℝ
  prior_residual : List ℝ
  npriors : ℕ

/-- Embedding of dataset.py lines 831-840: record the best fit and
`rms = (flux-fit).std()`, then, when `npriors = len(residual)-len(time)`
is positive, move the last `npriors` entries of the residual vector into
`prior_residual` (Python `residual[-npriors:]`) keeping the rest
(`residual[:-npriors]`). When `npriors = 0` the residual vector is kept
whole and the prior fields are not set (modelled as empty/zero). -/
noncomputable def lmfit_postprocess (residual : List ℝ)
    (flux fit : List ℝ) (ntime : ℕ) : LmfitPost :=
  let rms := listStd (List.zipWith (fun f m => f - m) flux fit)
  let npriors := residual.length - ntime
  if 0 < npriors then
    { bestfit := fit, rms := rms,
      residual := residual.take (residual.length - npriors),
      prior_residual := residual.drop (residual.length - npriors),
      npriors := npriors }
  else
    { bestfit := fit, rms := rms, residual := residual,
      prior_residual := [], npriors := 0 }

/-- Helper: length of a three-way zip. -/
theorem length_zipWith3 {α β γ δ : Type} (f : α → β → γ → δ) :
    ∀ (l1 : List α) (l2 : List β) (l3 : List γ),
      (List.zipWith3 f l1 l2 l3).length
        = min (min l1.length l2.length) l3.length := by
  intro l1
  induction l1 with
  | nil => intro l2 l3; simp [List.zipWith3]
  | cons a t ih =>
    intro l2 l3
    cases l2 with
    | nil => simp [List.zipWith3]
    | cons b t2 =>
      cases l3 with
      | nil => simp [List.zipWith3]
      | cons c t3 =>
        simp only [List.zipWith3, List.length_cons, ih]
        omega

/-- Helper: one prior residual per prior-carrying parameter. -/
theorem priorResiduals_length (m : PMap) :
    (priorResiduals m).length
      = (m.filter fun q => q.2.user_data.isSome).length := by
  induction m with
  | nil => rfl
  | cons head tail ih =>
    rcases hu : head.2.user_data with _ | u <;>
      simp [priorResiduals, List.filterMap_cons, List.filter_cons, hu] <;>
      simpa [priorResiduals] using ih

/-- C7: the least-squares target is the data residuals
`(flux-model)/flux_err` followed by one prior residual
`(prior_mean - value)/prior_sigma` per prior-carrying parameter; after
the fit, `npriors` equals the total residual length minus the number of
light-curve points (= the number of prior-carrying parameters), the last
`npriors` entries become the prior-residual vector, the kept
data-residual vector has exactly one entry per light-curve point, and
the `rms` field records the standard deviation of the unscaled data
residuals `flux - fit`. -/
theorem chisq_prior_partition (m : PMap) (modelEval : PMap → List ℝ)
    (flux flux_err : List ℝ)
    (hfe : flux_err.length = flux.length)
    (hfit : (modelEval m).length = flux.length)
    (hp : 0 < (priorResiduals m).length) :
    (lmfit_postprocess (chisq_prior m modelEval flux flux_err) flux
        (modelEval m) flux.length).npriors
      = (m.filter fun q => q.2.user_data.isSome).length ∧
    (lmfit_postprocess (chisq_prior m modelEval flux flux_err) flux
        (modelEval m) flux.length).residual
      = dataResiduals flux (modelEval m) flux_err ∧
    (lmfit_postprocess (chisq_prior m modelEval flux flux_err) flux
        (modelEval m) flux.length).residual.length = flux.length ∧
    (lmfit_postprocess (chisq_prior m modelEval flux flux_err) flux
        (modelEval m) flux.length).prior_residual = priorResiduals m ∧
    (lmfit_postprocess (chisq_prior m modelEval flux flux_err) flux
        (modelEval m) flux.length).rms
      = listStd (List.zipWith (fun f mm => f - mm) flux (modelEval m)) := by
  have hdata : (dataResiduals flux (modelEval m) flux_err).length
      = flux.length := by
    rw [dataResiduals, length_zipWith3, hfit, hfe]
    omega
  have hlen : (chisq_prior m modelEval flux flux_err).length
      = flux.length + (priorResiduals m).length := by
    rw [chisq_prior, List.length_append, hdata]
  have hnp : (chisq_prior m modelEval flux flux_err).length
      - flux.length = (priorResiduals m).length := by omega
  have hkeep : (chisq_prior m modelEval flux flux_err).length
      - ((chisq_prior m modelEval flux flux_err).length - flux.length)
      = (dataResiduals flux (modelEval m) flux_err).length := by
    rw [hnp, hdata]; omega
  unfold lmfit_postprocess
  rw [if_pos (by rw [hnp]; exact hp)]
  refine ⟨?_, ?_, ?_, ?_, rfl⟩
  · show (chisq_prior m modelEval flux flux_err).length - flux.length = _
    rw [hnp, priorResiduals_length]
  · show (chisq_prior m modelEval flux flux_err).take _ = _
    rw [hkeep, chisq_prior, List.take_left]
  · show ((chisq_prior m modelEval flux flux_err).take _).length = _
    rw [hkeep, chisq_prior, List.take_left, hdata]
  · show (chisq_prior m modelEval flux flux_err).drop _ = _
    rw [hkeep, chisq_prior, List.drop_left]

/-- Helper: the `rms` field is set (to `(flux-fit).std()`) on both sides
of the partition branch. -/
theorem lmfit_postprocess_rms (residual flux fit : List ℝ) (ntime : ℕ) :
    (lmfit_postprocess residual flux fit ntime).rms
      = listStd (List.zipWith (fun f m => f - m) flux fit) := by
  simp only [lmfit_postprocess]
  by_cases h : 0 < residual.length - ntime
  · rw [if_pos h]
  · rw [if_neg h]

/-- A parameter with the Gaussian prior `2 ± 1` and current value 1. -/
noncomputable def parPrior : Par := { value := 1, user_data := some (2, 1) }

/-- A one-parameter map whose parameter carries a prior. -/
noncomputable def pMapC7 : PMap := [("T_0", parPrior)]

/-- C7 witness: the partition theorem applied at a concrete two-point
light curve with one prior-carrying parameter. -/
theorem chisq_prior_partition_witness :
    (lmfit_postprocess (chisq_prior pMapC7 (fun _ => [0, 0]) [1, 2]
        [1, 1]) [1, 2] [0, 0] 2).npriors
      = (pMapC7.filter fun q => q.2.user_data.isSome).length ∧
    (lmfit_postprocess (chisq_prior pMapC7 (fun _ => [0, 0]) [1, 2]
        [1, 1]) [1, 2] [0, 0] 2).residual
      = dataResiduals [1, 2] [0, 0] [1, 1] ∧
    (lmfit_postprocess (chisq_prior pMapC7 (fun _ => [0, 0]) [1, 2]
        [1, 1]) [1, 2] [0, 0] 2).residual.length = 2 ∧
    (lmfit_postprocess (chisq_prior pMapC7 (fun _ => [0, 0]) [1, 2]
        [1, 1]) [1, 2] [0, 0] 2).prior_residual = priorResiduals pMapC7 ∧
    (lmfit_postprocess (chisq_prior pMapC7 (fun _ => [0, 0]) [1, 2]
        [1, 1]) [1, 2] [0, 0] 2).rms
      = listStd (List.zipWith (fun f mm => f - mm) [1, 2] [0, 0]) := by
  have hp : 0 < (priorResiduals pMapC7).length := by
    simp [priorResiduals, pMapC7, parPrior]
  exact chisq_prior_partition pMapC7 (fun _ => [0, 0]) [1, 2] [1, 1]
    (by simp) (by simp) hp

/-- C7 counterexample: the recorded `rms` field is `(flux-fit).std()`,
the population standard deviation of the UNSCALED data residuals, not an
RMS: for the two-point curve `flux=[1,1]`, `fit=[0,0]`, `flux_err=[2,2]`
the code stores `std([1,1]) = 0`, while the RMS of the scaled data
residuals is `1/2` and the RMS of the unscaled ones is `1`. -/
theorem lmfit_rms_not_rms :
    (lmfit_postprocess (chisq_prior [] (fun _ => [0, 0]) [1, 1] [2, 2])
      [1, 1] [0, 0] 2).rms
      ≠ rmsOf (dataResiduals [1, 1] [0, 0] [2, 2]) ∧
    (lmfit_postprocess (chisq_prior [] (fun _ => [0, 0]) [1, 1] [2, 2])
      [1, 1] [0, 0] 2).rms
      ≠ rmsOf (List.zipWith (fun f m => f - m) [1, 1] [0, 0]) := by
  have h1 : (lmfit_postprocess (chisq_prior [] (fun _ => [0, 0]) [1, 1]
      [2, 2]) [1, 1] [0, 0] 2).rms = 0 := by
    rw [lmfit_postprocess_rms]
    have hz : List.zipWith (fun f m => f - m) [(1:ℝ), 1] [0, 0]
        = [1, 1] := by
      norm_num [List.zipWith]
    rw [hz]
    have hmean : listMean [(1:ℝ), 1] = 1 := by
      norm_num [listMean, List.sum]
    rw [listStd, hmean]
    norm_num
  have h2 : rmsOf (dataResiduals [1, 1] [0, 0] [2, 2]) = 1 / 2 := by
    have hz : dataResiduals [(1:ℝ), 1] [0, 0] [2, 2]
        = [1 / 2, 1 / 2] := by
      norm_num [dataResiduals, List.zipWith3]
    rw [hz, rmsOf]
    rw [show ((([(1:ℝ) / 2, 1 / 2].map fun x => x ^ 2).sum)
        / ([(1:ℝ) / 2, 1 / 2].length : ℝ)) = ((1:ℝ) / 2) ^ 2 by
      norm_num [List.sum]]
    exact Real.sqrt_sq (by norm_num)
  have h3 : rmsOf (List.zipWith (fun f m => f - m) [(1:ℝ), 1] [0, 0])
      = 1 := by
    have hz : List.zipWith (fun f m => f - m) [(1:ℝ), 1] [0, 0]
        = [1, 1] := by
      norm_num [List.zipWith]
    rw [hz, rmsOf]
    rw [show ((([(1:ℝ), 1].map fun x => x ^ 2).sum)
        / ([(1:ℝ), 1].length : ℝ)) = (1:ℝ) by norm_num [List.sum]]
    exact Real.sqrt_one
  rw [h1, h2, h3]
  norm_num

/-! ### C9: the per-parameter walker-perturbation scale

`Dataset.emcee_sampler` (dataset.py lines 1210-1223) builds, for every
varied parameter, the scale `vs` used to perturb walker starting
positions:

    if params[p].stderr is None:
        if params[p].user_data is None:
            vs.append(0.1*(params[p].max-params[p].min))
        else:
            vs.append(params[p].user_data.s)
    else:
        if np.isfinite(params[p].stderr):
            vs.append(params[p].stderr)
        else:
            vs.append(0.1*(params[p].max-params[p].min))

`stderr` is `None` or a float that may be `±inf`, modelled as
`Option EReal`. -/

/-- `np.isfinite` on a single extended real. -/
def isFiniteE (x : EReal) : Prop := x ≠ ⊥ ∧ x ≠ ⊤

/-- Embedding of the scale choice of dataset.py lines 1214-1223. -/
noncomputable def walkerScale (p : Par) : EReal :=
  match p.stderr with
  | none =>
    match p.user_data with
    | none => ((0.1 : ℝ) : EReal) * (p.max - p.min)
    | some u => ((u.2 : ℝ) : EReal)
  | some s =>
    if isFiniteE s then s
    else ((0.1 : ℝ) : EReal) * (p.max - p.min)

/-- Modelled from the spec: the claimed fallback order — the
optimizer-reported standard error if it is finite; OTHERWISE the sigma
of the attached Gaussian prior if one is attached; otherwise 10% of the
bound-interval width. -/
noncomputable def walkerScaleClaimed (p : Par) : EReal :=
  if h : ∃ s, p.stderr = some s ∧ isFiniteE s then h.choose
  else
    match p.user_data with
    | some u => ((u.2 : ℝ) : EReal)
    | none => ((0.1 : ℝ) : EReal) * (p.max - p.min)

/-- C9 (amended): the code's fallback order is — the reported standard
error if PRESENT and finite; if present but non-finite, 10% of the
bound-interval width (the prior sigma is NOT consulted in this case); if
absent, the prior sigma when a Gaussian prior is attached, else 10% of
the bound-interval width. -/
theorem walkerScale_characterization :
    (∀ p : Par, ∀ s : EReal, p.stderr = some s → isFiniteE s →
      walkerScale p = s) ∧
    (∀ p : Par, ∀ s : EReal, p.stderr = some s → ¬ isFiniteE s →
      walkerScale p = ((0.1 : ℝ) : EReal) * (p.max - p.min)) ∧
    (∀ p : Par, ∀ u : ℝ × ℝ, p.stderr = none → p.user_data = some u →
      walkerScale p = ((u.2 : ℝ) : EReal)) ∧
    (∀ p : Par, p.stderr = none → p.user_data = none →
      walkerScale p = ((0.1 : ℝ) : EReal) * (p.max - p.min)) := by
  refine ⟨?_, ?_, ?_, ?_⟩
  · intro p s hs hf
    unfold walkerScale
    rw [hs]
    exact if_pos hf
  · intro p s hs hf
    unfold walkerScale
    rw [hs]
    exact if_neg hf
  · intro p u hs hu
    unfold walkerScale
    rw [hs, hu]
  · intro p hs hu
    unfold walkerScale
    rw [hs, hu]

/-- A varied parameter with an infinite reported standard error AND an
attached Gaussian prior of sigma 1, bounded to `[0, 1]`. -/
noncomputable def parC9 : Par where
  value := 0.5
  min := ((0 : ℝ) : EReal)
  max := ((1 : ℝ) : EReal)
  user_data := some (0.5, 1)
  stderr := some ⊤

/-- C9 witness: the amended characterization applied at concrete
parameters for all four cases. -/
theorem walkerScale_characterization_witness :
    walkerScale { demoPar with stderr := some ((2 : ℝ) : EReal) }
      = ((2 : ℝ) : EReal) ∧
    walkerScale parC9
      = ((0.1 : ℝ) : EReal) * (((1 : ℝ) : EReal) - ((0 : ℝ) : EReal)) ∧
    walkerScale { demoPar with user_data := some (0.5, 3) }
      = ((3 : ℝ) : EReal) ∧
    walkerScale demoPar
      = ((0.1 : ℝ) : EReal) * (((1 : ℝ) : EReal) - ((0 : ℝ) : EReal)) := by
  obtain ⟨c1, c2, c3, c4⟩ := walkerScale_characterization
  refine ⟨c1 _ ((2 : ℝ) : EReal) rfl ⟨EReal.coe_ne_bot 2,
      EReal.coe_ne_top 2⟩, ?_, c3 _ (0.5, 3) rfl rfl, c4 _ rfl rfl⟩
  have := c2 parC9 ⊤ rfl (fun h => h.2 rfl)
  exact this

/-- C9 counterexample: for a parameter whose reported standard error is
present but infinite and which carries a Gaussian prior of sigma 1, the
claim's fallback order picks the prior sigma (1), but the code picks 10%
of the bound width (0.1). -/
theorem walkerScale_cex : walkerScale parC9 ≠ walkerScaleClaimed parC9 := by
  have hcode : walkerScale parC9 = ((0.1 : ℝ) : EReal) := by
    have h : walkerScale parC9
        = ((0.1 : ℝ) : EReal) * (((1 : ℝ) : EReal) - ((0 : ℝ) : EReal)) := by
      unfold walkerScale
      exact if_neg (fun h => h.2 rfl)
    rw [h, ← EReal.coe_sub, ← EReal.coe_mul]
    norm_num
  have hne : ¬ ∃ s, parC9.stderr = some s ∧ isFiniteE s := by
    rintro ⟨s, hs, hf⟩
    have h2 : (⊤ : EReal) = s := Option.some_injective _ hs
    exact hf.2 h2.symm
  have hclaim : walkerScaleClaimed parC9 = ((1 : ℝ) : EReal) := by
    unfold walkerScaleClaimed
    rw [dif_neg hne]
    rfl
  rw [hcode, hclaim]
  intro h
  have := EReal.coe_eq_coe_iff.mp h
  norm_num at this

end Pycheops
